import Mathlib

/-!
Shallow embedding of the zoofuse adapter (a FUSE filesystem backed by a
ZooKeeper tree) and proofs about its behaviour.

Paths are embedded as lists of characters (`GoPath`), matching Go strings on a
unix system where `os.PathSeparator = '/'`.  The functions `goClean`, `goJoin`
and `goRel` embed Go's `path/filepath.Clean`, `filepath.Join` and
`filepath.Rel` (unix build, no volume names), which `ZooHandle.ZKPath` in
`src/zookeeper.go` is built from.  `filepath.Clean` is the stack algorithm:
split at separators, drop empty and "." components, resolve ".." against the
stack, and drop a ".." that would climb above the root of a rooted path.
-/

abbrev GoPath := List Char

/-- Go `path/filepath` segmentation of a string at `'/'`: the list of
(possibly empty) segments between separators. -/
def splitSlash : GoPath → List GoPath
  | [] => [[]]
  | c :: rest =>
    let r := splitSlash rest
    if c = '/' then [] :: r
    else (c :: r.headD []) :: r.tail

/-- Joining segments with `'/'` between them (inverse of `splitSlash`). -/
def joinSlash : List GoPath → GoPath
  | [] => []
  | [c] => c
  | c :: cs => c ++ '/' :: joinSlash cs

/-- One step of `filepath.Clean`'s component stack: skip empty and `"."`
components, resolve `".."` against the stack (a `".."` on an empty stack is
dropped for rooted paths and kept for relative ones), push anything else. -/
def mergeComp (rooted : Bool) (stack : List GoPath) (c : GoPath) : List GoPath :=
  if c = [] ∨ c = ['.'] then stack
  else if c = ['.', '.'] then
    match stack with
    | [] => if rooted then [] else [['.', '.']]
    | top :: rest => if top = ['.', '.'] then ['.', '.'] :: top :: rest else rest
  else c :: stack

/-- The cleaned component list of a path, in order. -/
def cleanComps (rooted : Bool) (cs : List GoPath) : List GoPath :=
  (cs.foldl (mergeComp rooted) []).reverse

/-- Reassembly step of `filepath.Clean`: an empty component list is `"/"` or
`"."` depending on rootedness, otherwise the joined components with a leading
separator when rooted. -/
def goCleanAux (rooted : Bool) (comps : List GoPath) : GoPath :=
  if comps = [] then (if rooted then ['/'] else ['.'])
  else (if rooted then ['/'] else []) ++ joinSlash comps

/-- Go `filepath.Clean` (unix). -/
def goClean (s : GoPath) : GoPath :=
  if s = [] then ['.']
  else goCleanAux (s.head? == some '/') (cleanComps (s.head? == some '/') (splitSlash s))

/-- Go `filepath.Join` (unix): drop leading empty elements, join the rest with
separators and clean the result; all elements empty yields the empty path. -/
def goJoin (elems : List GoPath) : GoPath :=
  let elems2 := elems.dropWhile (fun e => e.isEmpty)
  if elems2 = [] then [] else goClean (joinSlash elems2)

/-- Strips the longest common prefix from two segment lists, returning the two
remainders (the position at which Go's `filepath.Rel` loop stops). -/
def stripCommon : List GoPath → List GoPath → List GoPath × List GoPath
  | b :: bs, t :: ts => if b = t then stripCommon bs ts else (b :: bs, t :: ts)
  | bs, ts => (bs, ts)

/-- Go `filepath.Rel` (unix): `none` is the error return.  Both inputs are
cleaned; equal paths give `"."`; a rooted/relative mismatch or a leftover
`".."` base element is an error; otherwise the answer climbs out of the
remaining base elements with `".."` steps and descends into the remaining
target elements. -/
def goRel (basepath targpath : GoPath) : Option GoPath :=
  let b0 := goClean basepath
  let t := goClean targpath
  if t = b0 then some ['.']
  else
    let b := if b0 = ['.'] then [] else b0
    if (b.head? == some '/') ≠ (t.head? == some '/') then none
    else
      let pr := stripCommon (splitSlash b) (splitSlash t)
      if pr.1.head? = some ['.', '.'] then none
      else if joinSlash pr.1 = [] then some (joinSlash pr.2)
      else
        let dots := joinSlash (List.replicate pr.1.length ['.', '.'])
        some (if joinSlash pr.2 = [] then dots else dots ++ '/' :: joinSlash pr.2)

/-!
## Data model (`src/zookeeper.go`, `src/fuse.go`, `src/fusefile.go`)

The gateway (`Zoohandler`) and the wire client are modelled as function
fields: a call site observes only the function's value at the queried
arguments, so quantifying over these functions captures every behaviour of
the external ZooKeeper store.  `zk.Stat` is embedded with the four fields the
program reads (all non-negative in the store).  Go byte slices are `List Nat`.
-/

/-- The fields of `zk.Stat` that zoofuse reads. -/
structure Stat where
  NumChildren : Nat
  DataLength : Nat
  Mtime : Nat
  Ctime : Nat
deriving DecidableEq

/-- The fuse status codes zoofuse returns. -/
inductive Status where
  | OK
  | ENOENT
  | IOFailure
  | EPERM
  | ENOTDIR
deriving DecidableEq

/-- Result of a `Zoohandler.Exists` call: wire error, node absent, or node
present with its `zk.Stat`. -/
inductive ExistsRes where
  | err
  | absent
  | present (stat : Stat)

/-- `MaxZnodeData` from `src/zookeeper.go`. -/
def MaxZnodeData : Nat := 1048576

/-- Error cases of `ZooHandle.Set`: the local payload-size rejection or a
wire-level error passed through. -/
inductive SetErr where
  | payloadTooLarge
  | wireErr
deriving DecidableEq

/-- `ZooHandle` from `src/zookeeper.go`: the wire client's `Set` (the one wire
call the verified claims exercise) plus the chroot alias and the fuse mount
path. -/
structure ZooHandle where
  zkSet : GoPath → List Nat → Int → Except Unit Stat
  ZKRoot : GoPath
  FuseMount : GoPath

/-- `ZooHandle.ZKPath` from `src/zookeeper.go`:
`rel, err := filepath.Rel(z.FuseMount, filepath.Join(z.FuseMount, path))`;
on error `filepath.Join("/", z.ZKRoot)`, otherwise
`filepath.Join("/", z.ZKRoot, rel)`. -/
def ZooHandle.ZKPath (z : ZooHandle) (path : GoPath) : GoPath :=
  match goRel z.FuseMount (goJoin [z.FuseMount, path]) with
  | none => goJoin [['/'], z.ZKRoot]
  | some rel => goJoin [['/'], z.ZKRoot, rel]

/-- `ZooHandle.Set` from `src/zookeeper.go`: rejects a payload longer than
`MaxZnodeData` before translating the path or touching the wire client,
otherwise translates and delegates, passing the wire result through. -/
def ZooHandle.Set (z : ZooHandle) (path : GoPath) (data : List Nat) (version : Int) :
    Except SetErr Stat :=
  if MaxZnodeData < data.length then .error .payloadTooLarge
  else
    match z.zkSet (z.ZKPath path) data version with
    | .error _ => .error .wireErr
    | .ok stat => .ok stat

/-- Modelled from the spec: the `ZNodeMarker` constant is referenced by
`src/fuse.go` and by the `TestZKPath` test appended to `src/go.mod`, but its
defining declaration is not among the source files.  The spec (§6, marker
entry: a fixed-name synthetic file) together with the README fixes the marker
file name as `__znode_data__`. -/
def ZNodeMarker : GoPath := "__znode_data__".data

/-- File mask constants from `src/fuse.go`. -/
def IfDirRW : Nat := 0o755

/-- RO directory mask from `src/fuse.go`. -/
def IfDirRO : Nat := 0o555

/-- RW file mask from `src/fuse.go`. -/
def IfRegRW : Nat := 0o644

/-- RO file mask from `src/fuse.go`. -/
def IfRegRO : Nat := 0o444

/-- `fuse.S_IFDIR` (go-fuse, equals `syscall.S_IFDIR`). -/
def S_IFDIR : Nat := 0o40000

/-- `fuse.S_IFREG` (go-fuse, equals `syscall.S_IFREG`). -/
def S_IFREG : Nat := 0o100000

/-- `MaxConcurrentRequests` from `src/fuse.go`. -/
def MaxConcurrentRequests : Nat := 25

/-- `dirPermissions` from `src/fuse.go`. -/
def dirPermissions (isReadWrite : Bool) : Nat :=
  if isReadWrite then IfDirRW else IfDirRO

/-- `filePermissions` from `src/fuse.go`. -/
def filePermissions (isReadWrite : Bool) : Nat :=
  if isReadWrite then IfRegRW else IfRegRO

/-- The `maxWorkers` computation in `FuseFS.OpenDir` (`src/fuse.go`):
`maxWorkers := MaxConcurrentRequests; if maxWorkers > len(children)
{ maxWorkers = len(children) }` — the capacity of the `chanLimiter`
counting semaphore. -/
def maxWorkers (numChildren : Nat) : Nat :=
  if MaxConcurrentRequests > numChildren then numChildren else MaxConcurrentRequests

/-- The fields of `fuse.Attr` that zoofuse assigns. -/
structure FAttr where
  Mode : Nat
  Size : Nat
  Mtime : Nat
  Ctime : Nat
deriving DecidableEq

/-- `fuse.DirEntry`: name and mode. -/
structure DirEntry where
  Name : GoPath
  Mode : Nat
deriving DecidableEq

/-- `FuseFile` from `src/fusefile.go`: payload snapshot, the assigned
attribute fields (`Mode`, `Size`; the constructor's wall-clock timestamps and
owner are not modelled), the node path and the gateway reference (its `Set`
capability, the only one `FuseFile` uses). -/
structure FuseFile where
  data : List Nat
  Mode : Nat
  Size : Nat
  path : GoPath
  zhSet : GoPath → List Nat → Int → Except Unit Stat

/-- `NewFuseFile` from `src/fusefile.go`: the attribute mode is
`mode | IfRegRW` and the size is the snapshot length. -/
def NewFuseFile (data : List Nat) (mode : Nat) (path : GoPath)
    (zhSet : GoPath → List Nat → Int → Except Unit Stat) : FuseFile :=
  ⟨data, Nat.lor mode IfRegRW, data.length, path, zhSet⟩

/-- Go slicing `s[lo:hi]`: `none` is the out-of-range panic
(`lo < 0`, `hi < lo`, or `len s < hi`). -/
def goSlice (s : List Nat) (lo hi : Int) : Option (List Nat) :=
  if 0 ≤ lo ∧ lo ≤ hi ∧ hi ≤ (s.length : Int) then
    some ((s.take hi.toNat).drop lo.toNat)
  else none

/-- `FuseFile.Read` from `src/fusefile.go`: `end := int(off) + len(buf)`,
clamped to `len(f.data)` from above, then `f.data[off:end]`.  Only the
length of the caller's buffer matters.  `none` is the Go panic of the slice
expression. -/
def FuseFile.Read (f : FuseFile) (bufLen : Nat) (off : Int) : Option (List Nat × Status) :=
  let e : Int := off + bufLen
  let e2 : Int := if (f.data.length : Int) < e then (f.data.length : Int) else e
  (goSlice f.data off e2).map (fun d => (d, Status.OK))

/-- `FuseFile.Write` from `src/fusefile.go`: empty content is a no-op success;
otherwise the whole content goes to `zh.Set(f.path, content, -1)`; on error
`(0, EIO)`; on success the recorded size becomes `stat.DataLength` and
`uint32(stat.DataLength)` is returned. -/
def FuseFile.Write (f : FuseFile) (content : List Nat) (off : Int) :
    FuseFile × Nat × Status :=
  if content.length = 0 then (f, 0, .OK)
  else
    match f.zhSet f.path content (-1) with
    | .error _ => (f, 0, .IOFailure)
    | .ok stat => ({ f with Size := stat.DataLength }, stat.DataLength % 2 ^ 32, .OK)

/-- `FuseFS` from `src/fuse.go`: the `Zoohandler` gateway capabilities the
verified methods call, plus the read-write flag. -/
structure FuseFS where
  zhExists : GoPath → ExistsRes
  zhChildren : GoPath → Except Unit (List GoPath)
  zhGet : GoPath → Except Unit (List Nat)
  zhSet : GoPath → List Nat → Int → Except Unit Stat
  zhCreate : GoPath → List Nat → Int → Except Unit GoPath
  zhDelete : GoPath → Int → Except Unit Unit
  IsReadWrite : Bool

/-- `FuseFS.GetAttr` from `src/fuse.go`: the empty path is the synthetic
root directory; otherwise `Exists` decides presence, and the mode is forced
to a read-only regular file on a `ZNodeMarker` suffix, else chosen by the
child count. -/
def FuseFS.GetAttr (f : FuseFS) (path : GoPath) : Except Status FAttr :=
  if path = [] then .ok ⟨Nat.lor S_IFDIR (dirPermissions f.IsReadWrite), 0, 0, 0⟩
  else
    match f.zhExists path with
    | .err => .error .ENOENT
    | .absent => .error .ENOENT
    | .present stat =>
      let mode :=
        if ZNodeMarker.isSuffixOf path then Nat.lor S_IFREG IfRegRO
        else if stat.NumChildren = 0 then Nat.lor S_IFREG (filePermissions f.IsReadWrite)
        else Nat.lor S_IFDIR (dirPermissions f.IsReadWrite)
      .ok ⟨mode, stat.DataLength, stat.Mtime / 1000, stat.Ctime / 1000⟩

/-- `FuseFS.Unlink` from `src/fuse.go`: a `ZNodeMarker` suffix is `EPERM`
before any gateway call; otherwise `zh.Delete(path, -1)` unconditionally,
failure mapped to `EIO`. -/
def FuseFS.Unlink (f : FuseFS) (path : GoPath) : Status :=
  if ZNodeMarker.isSuffixOf path then .EPERM
  else
    match f.zhDelete path (-1) with
    | .error _ => .IOFailure
    | .ok _ => .OK

/-- `FuseFS.Create` from `src/fuse.go`: `zh.Create(path, nil, 0, acl)`;
failure is `ENOENT`, success returns `NewFuseFile(nil, IfRegRW, path, f.zh)`.
The constant open ACL argument is not modelled. -/
def FuseFS.Create (f : FuseFS) (path : GoPath) : Except Status FuseFile :=
  match f.zhCreate path [] 0 with
  | .error _ => .error .ENOENT
  | .ok _ => .ok (NewFuseFile [] IfRegRW path f.zhSet)

/-- `FuseFS.Open` from `src/fuse.go`: `zh.Get(path)`; failure is `ENOENT`,
success returns `NewFuseFile(data, IfRegRW, path, f.zh)`. -/
def FuseFS.Open (f : FuseFS) (path : GoPath) : Except Status FuseFile :=
  match f.zhGet path with
  | .error _ => .error .ENOENT
  | .ok data => .ok (NewFuseFile data IfRegRW path f.zhSet)

/-!
## Interleaving model of `OpenDir`'s unsynchronized appends

In `src/fuse.go` every probe goroutine executes
`dirEntries = append(dirEntries, dirEntry)` on the one `dirEntries` slice
shared by all goroutines, with no mutex; `append` is a read of the shared
slice followed by a write of the extended slice, so under any interleaving
semantics the two steps of different goroutines can interleave.  `raceStep`
gives each goroutine `i` (holding the ready entry `entries[i]`) the two steps
`(i, false)` — read the shared list into its local — and `(i, true)` — write
back its local extended by its entry.  `runSched` runs a schedule from the
initial state (marker entry only, no local snapshots).
-/

/-- Shared list plus each goroutine's local snapshot (if it has read). -/
structure RaceState where
  shared : List DirEntry
  locals : List (Option (List DirEntry))

/-- One scheduled step of goroutine `step.1`: a read (`step.2 = false`) or a
write (`step.2 = true`) half of its unsynchronized append. -/
def raceStep (entries : List DirEntry) (s : RaceState) (step : Nat × Bool) : RaceState :=
  if step.2 = false then
    { s with locals := s.locals.set step.1 (some s.shared) }
  else
    match s.locals.getD step.1 none with
    | none => s
    | some snap =>
      match entries.get? step.1 with
      | none => s
      | some e => { s with shared := snap ++ [e] }

/-- The shared `dirEntries` list after running a schedule of read/write steps
from the initial state `[marker]`. -/
def runSched (entries : List DirEntry) (sched : List (Nat × Bool)) : List DirEntry :=
  (sched.foldl (raceStep entries)
    ⟨[⟨ZNodeMarker, S_IFREG⟩], List.replicate entries.length none⟩).shared

/-- The entry the probe goroutine for child `directory` computes in
`FuseFS.OpenDir` (`src/fuse.go`): `Exists(filepath.Join(path, "/",
directory))`; on probe error or absence the goroutine returns before ever
touching `dirEntries` (`none`); otherwise it will append an entry whose mode
is `S_IFDIR` iff the child's child count is positive. -/
def openDirEntry (f : FuseFS) (path directory : GoPath) : Option DirEntry :=
  match f.zhExists (goJoin [path, ['/'], directory]) with
  | .err => none
  | .absent => none
  | .present stat =>
    some ⟨directory, if 0 < stat.NumChildren then S_IFDIR else S_IFREG⟩

/-- `FuseFS.OpenDir` from `src/fuse.go` under interleaving semantics: the
scheduler's choice is an explicit `sched` parameter.  A failed `Children`
call is `ENOENT` (no listing); with no children the marker-only list is
returned; otherwise each child's probe goroutine computes its entry
(`openDirEntry`; goroutines whose probes error or report absence never touch
the shared slice) and the surviving goroutines — indexed in children order —
perform their unsynchronized `dirEntries = append(dirEntries, dirEntry)` as
the read/write step pairs of `runSched`, in whatever order `sched`
interleaves them; `wg.Wait()` then returns the shared slice. -/
def FuseFS.OpenDir (f : FuseFS) (path : GoPath) (sched : List (Nat × Bool)) :
    Except Status (List DirEntry) :=
  match f.zhChildren path with
  | .error _ => .error .ENOENT
  | .ok children =>
    if children = [] then .ok [⟨ZNodeMarker, S_IFREG⟩]
    else .ok (runSched (children.filterMap (openDirEntry f path)) sched)

/-!
## Fixtures for witness theorems
-/

/-- Wire/gateway `Set` that succeeds and reports the stored length. -/
def zhSetOkFn : GoPath → List Nat → Int → Except Unit Stat :=
  fun _ d _ => .ok ⟨0, d.length, 0, 0⟩

/-- Gateway `Set` that fails. -/
def zhSetErrFn : GoPath → List Nat → Int → Except Unit Stat :=
  fun _ _ _ => .error ()

/-- Gateway `Get` returning the two bytes `"hi"`. -/
def zhGetFn : GoPath → Except Unit (List Nat) :=
  fun _ => .ok [104, 105]

/-- Gateway `Create` that succeeds. -/
def zhCreateFn : GoPath → List Nat → Int → Except Unit GoPath :=
  fun p _ _ => .ok p

/-- Gateway `Delete` that succeeds. -/
def zhDeleteOkFn : GoPath → Int → Except Unit Unit :=
  fun _ _ => .ok ()

/-- Gateway `Children` returning children `a`, `b`, `c`. -/
def chSampleFn : GoPath → Except Unit (List GoPath) :=
  fun _ => .ok ["a".data, "b".data, "c".data]

/-- Gateway `Exists` for listing directory `d`: child `a` is a childless
present node, `b` is absent, `c` is present with three children, anything
else is a wire error. -/
def exProbeFn : GoPath → ExistsRes := fun p =>
  if p = "d/a".data then .present ⟨0, 1, 0, 0⟩
  else if p = "d/b".data then .absent
  else if p = "d/c".data then .present ⟨3, 1, 0, 0⟩
  else .err

/-- Gateway `Exists` reporting every node present with two children. -/
def exPresentFn : GoPath → ExistsRes :=
  fun _ => .present ⟨2, 7, 1999, 2999⟩

/-- A sample `FuseFS` in read-write mode. -/
def fsA : FuseFS :=
  ⟨exProbeFn, chSampleFn, zhGetFn, zhSetOkFn, zhCreateFn, zhDeleteOkFn, true⟩

/-- A sample open file handle over a three-byte snapshot. -/
def fSample : FuseFile :=
  NewFuseFile [10, 20, 30] 0 "mock/path".data zhSetOkFn

/-- A sample `ZooHandle` with alias `"/chroot"` mounted at `"/mnt/fuse"`. -/
def zSample : ZooHandle :=
  ⟨zhSetOkFn, "/chroot".data, "/mnt/fuse".data⟩

/-- A payload one byte over the `MaxZnodeData` bound. -/
def bigData : List Nat := List.replicate 1048577 0

/-- A path component (no separator, not empty, not a dot component). -/
def goodComp (c : GoPath) : Prop :=
  c ≠ [] ∧ c ≠ ['.'] ∧ c ≠ ['.', '.'] ∧ '/' ∉ c

instance (c : GoPath) : Decidable (goodComp c) := by
  unfold goodComp
  infer_instance

/-!
## Sanity theorems: the filepath embedding against Go behaviour
-/

theorem goClean_go_examples :
    goClean "/mnt/fuse/..".data = "/mnt".data
    ∧ goClean "//chroot/../../etc".data = "/etc".data
    ∧ goClean "a/../..".data = "..".data
    ∧ goClean "".data = ".".data
    ∧ goJoin ["/mnt/fuse".data, "test-path/".data] = "/mnt/fuse/test-path".data := by
  refine ⟨by decide, by decide, by decide, by decide, by decide⟩

theorem goRel_go_examples :
    goRel "/mnt/fuse".data "/mnt/fuse/a/b".data = some "a/b".data
    ∧ goRel "/mnt/fuse".data "/mnt".data = some "..".data
    ∧ goRel "/mnt/fuse".data "/etc".data = some "../../etc".data
    ∧ goRel "mnt".data "/etc".data = none
    ∧ goRel "..".data "x".data = none := by
  refine ⟨by decide, by decide, by decide, by decide, by decide⟩

/-- The assertions of `TestZKPath` (appended to `src/go.mod`) that the
`src/zookeeper.go` code does satisfy. -/
theorem zkpath_test_examples :
    ZooHandle.ZKPath ⟨zhSetOkFn, "/".data, "/mnt/fuse".data⟩ "".data = "/".data
    ∧ ZooHandle.ZKPath ⟨zhSetOkFn, "/".data, "/mnt/fuse".data⟩ "/".data = "/".data
    ∧ ZooHandle.ZKPath ⟨zhSetOkFn, "/".data, "/mnt/fuse".data⟩ "/test-path/".data
      = "/test-path".data
    ∧ ZooHandle.ZKPath ⟨zhSetOkFn, "/chroot".data, "/mnt/fuse".data⟩ "/".data
      = "/chroot".data
    ∧ ZooHandle.ZKPath ⟨zhSetOkFn, "/chroot".data, "/mnt/fuse".data⟩
        "test-path/sub-node".data
      = "/chroot/test-path/sub-node".data := by
  refine ⟨by decide, by decide, by decide, by decide, by decide⟩

/-!
## Lemmas about the filepath embedding
-/

theorem splitSlash_ne_nil (s : GoPath) : splitSlash s ≠ [] := by
  cases s with
  | nil => simp [splitSlash]
  | cons c r =>
    simp only [splitSlash]
    split <;> simp

theorem splitSlash_slash (r : GoPath) : splitSlash ('/' :: r) = [] :: splitSlash r := by
  simp [splitSlash]

theorem splitSlash_cons_ne (c : Char) (r : GoPath) (h : c ≠ '/') :
    splitSlash (c :: r) = (c :: (splitSlash r).headD []) :: (splitSlash r).tail := by
  simp [splitSlash, h]

theorem splitSlash_noslash (c : GoPath) (h : '/' ∉ c) : splitSlash c = [c] := by
  induction c with
  | nil => rfl
  | cons a t ih =>
    have ha : a ≠ '/' := fun e => h (e ▸ List.mem_cons_self a t)
    rw [splitSlash_cons_ne a t ha, ih (fun hm => h (List.mem_cons_of_mem a hm))]
    simp

theorem splitSlash_sep (c : GoPath) (r : GoPath) (h : '/' ∉ c) :
    splitSlash (c ++ '/' :: r) = c :: splitSlash r := by
  induction c with
  | nil => simpa using splitSlash_slash r
  | cons a t ih =>
    have ha : a ≠ '/' := fun e => h (e ▸ List.mem_cons_self a t)
    have ih2 := ih (fun hm => h (List.mem_cons_of_mem a hm))
    rw [List.cons_append, splitSlash_cons_ne a _ ha, ih2]
    simp

theorem joinSlash_cons (c : GoPath) (cs : List GoPath) (h : cs ≠ []) :
    joinSlash (c :: cs) = c ++ '/' :: joinSlash cs := by
  cases cs with
  | nil => exact absurd rfl h
  | cons d t => rfl

theorem splitSlash_joinSlash (cs : List GoPath) (h1 : cs ≠ [])
    (h2 : ∀ c ∈ cs, '/' ∉ c) : splitSlash (joinSlash cs) = cs := by
  induction cs with
  | nil => exact absurd rfl h1
  | cons c t ih =>
    cases t with
    | nil => simpa [joinSlash] using splitSlash_noslash c (h2 c (by simp))
    | cons d u =>
      rw [joinSlash_cons c (d :: u) (by simp), splitSlash_sep c _ (h2 c (by simp))]
      rw [ih (by simp) (fun x hx => h2 x (List.mem_cons_of_mem c hx))]

theorem splitSlash_joinSlash_sep (cs : List GoPath) (r : GoPath) (h1 : cs ≠ [])
    (h2 : ∀ c ∈ cs, '/' ∉ c) :
    splitSlash (joinSlash cs ++ '/' :: r) = cs ++ splitSlash r := by
  induction cs with
  | nil => exact absurd rfl h1
  | cons c t ih =>
    cases t with
    | nil => simpa [joinSlash] using splitSlash_sep c r (h2 c (by simp))
    | cons d u =>
      rw [joinSlash_cons c (d :: u) (by simp), List.append_assoc, List.cons_append]
      rw [splitSlash_sep c _ (h2 c (by simp))]
      rw [ih (by simp) (fun x hx => h2 x (List.mem_cons_of_mem c hx))]
      simp

theorem joinSlash_append (xs ys : List GoPath) (hx : xs ≠ []) (hy : ys ≠ []) :
    joinSlash (xs ++ ys) = joinSlash xs ++ '/' :: joinSlash ys := by
  induction xs with
  | nil => exact absurd rfl hx
  | cons x t ih =>
    cases t with
    | nil => simp [joinSlash_cons x ys hy, joinSlash]
    | cons d u =>
      rw [List.cons_append, joinSlash_cons x (d :: u ++ ys) (by simp),
        joinSlash_cons x (d :: u) (by simp), ih (by simp)]
      simp

theorem joinSlash_ne_nil (cs : List GoPath) (h1 : cs ≠ [])
    (h2 : ∀ c ∈ cs, goodComp c) : joinSlash cs ≠ [] := by
  cases cs with
  | nil => exact absurd rfl h1
  | cons c t =>
    cases t with
    | nil => exact (h2 c (by simp)).1
    | cons d u =>
      rw [joinSlash_cons c (d :: u) (by simp)]
      simp

theorem mergeComp_nilc (rooted : Bool) (st : List GoPath) : mergeComp rooted st [] = st := by
  simp [mergeComp]

theorem mergeComp_good (rooted : Bool) (st : List GoPath) (c : GoPath) (h : goodComp c) :
    mergeComp rooted st c = c :: st := by
  obtain ⟨h1, h2, h3, _⟩ := h
  simp [mergeComp, h1, h2, h3]

theorem foldl_mergeComp (rooted : Bool) (cs : List GoPath) :
    ∀ st : List GoPath, (∀ c ∈ cs, c = [] ∨ goodComp c) →
      List.foldl (mergeComp rooted) st cs
        = (cs.filter fun c => !c.isEmpty).reverse ++ st := by
  induction cs with
  | nil => intro st _; simp
  | cons c t ih =>
    intro st h
    rcases h c (by simp) with hc | hc
    · subst hc
      rw [List.foldl_cons, mergeComp_nilc, ih st (fun x hx => h x (by simp [hx]))]
      simp
    · have hne : c.isEmpty = false := by
        cases c with
        | nil => exact absurd rfl hc.1
        | cons a b => rfl
      rw [List.foldl_cons, mergeComp_good rooted st c hc,
        ih (c :: st) (fun x hx => h x (by simp [hx]))]
      rw [List.filter_cons_of_pos (by simp [hne])]
      simp

theorem cleanComps_goodish (rooted : Bool) (cs : List GoPath)
    (h : ∀ c ∈ cs, c = [] ∨ goodComp c) :
    cleanComps rooted cs = cs.filter fun c => !c.isEmpty := by
  unfold cleanComps
  rw [foldl_mergeComp rooted cs [] h]
  simp

theorem filter_of_good (cs : List GoPath) (h : ∀ c ∈ cs, goodComp c) :
    (cs.filter fun c => !c.isEmpty) = cs := by
  induction cs with
  | nil => rfl
  | cons c t ih =>
    have hg : goodComp c := h c (by simp)
    have hne : c.isEmpty = false := by
      cases c with
      | nil => exact absurd rfl hg.1
      | cons a b => rfl
    rw [List.filter_cons_of_pos (by simp [hne]), ih (fun x hx => h x (by simp [hx]))]

theorem goClean_slash_comps (s : GoPath) (cs : List GoPath)
    (hs : splitSlash ('/' :: s) = [] :: cs)
    (h : ∀ c ∈ cs, c = [] ∨ goodComp c)
    (hf : (cs.filter fun c => !c.isEmpty) ≠ []) :
    goClean ('/' :: s) = '/' :: joinSlash (cs.filter fun c => !c.isEmpty) := by
  simp only [goClean]
  rw [if_neg (by simp)]
  simp only [List.head?_cons, beq_self_eq_true]
  rw [hs, cleanComps_goodish true ([] :: cs) (by
    intro c hc
    rcases List.mem_cons.mp hc with rfl | hc
    · exact Or.inl rfl
    · exact h c hc)]
  have hfc : (([] : GoPath) :: cs).filter (fun c => !c.isEmpty) = cs.filter fun c => !c.isEmpty := by
    simp
  rw [hfc]
  unfold goCleanAux
  rw [if_neg hf]
  simp

theorem goClean_rooted (ms : List GoPath) (hm : ∀ c ∈ ms, goodComp c) :
    goClean ('/' :: joinSlash ms) = '/' :: joinSlash ms := by
  cases ms with
  | nil => decide
  | cons m t =>
    have hns : ∀ c ∈ m :: t, '/' ∉ c := fun c hc => (hm c hc).2.2.2
    have hsplit : splitSlash ('/' :: joinSlash (m :: t)) = [] :: m :: t := by
      rw [splitSlash_slash, splitSlash_joinSlash (m :: t) (by simp) hns]
    rw [goClean_slash_comps (joinSlash (m :: t)) (m :: t) hsplit
      (fun c hc => Or.inr (hm c hc))
      (by rw [filter_of_good (m :: t) hm]; simp)]
    rw [filter_of_good (m :: t) hm]

theorem stripCommon_cons_eq (b : GoPath) (bs ts : List GoPath) :
    stripCommon (b :: bs) (b :: ts) = stripCommon bs ts := by
  simp [stripCommon]

theorem stripCommon_cons_ne (b t : GoPath) (bs ts : List GoPath) (h : b ≠ t) :
    stripCommon (b :: bs) (t :: ts) = (b :: bs, t :: ts) := by
  simp [stripCommon, h]

theorem stripCommon_append (xs ys : List GoPath) : stripCommon xs (xs ++ ys) = ([], ys) := by
  induction xs with
  | nil =>
    cases ys with
    | nil => rfl
    | cons y t => rfl
  | cons x t ih =>
    rw [List.cons_append, stripCommon_cons_eq]
    exact ih

theorem goRel_alias (ms ps : List GoPath) (hm : ∀ c ∈ ms, goodComp c)
    (hp : ∀ c ∈ ps, goodComp c) (hps : ps ≠ []) :
    goRel ('/' :: joinSlash ms) ('/' :: joinSlash (ms ++ ps)) = some (joinSlash ps) := by
  have hmp : ∀ c ∈ ms ++ ps, goodComp c := by
    intro c hc
    rcases List.mem_append.mp hc with hc | hc
    · exact hm c hc
    · exact hp c hc
  have hbase : goClean ('/' :: joinSlash ms) = '/' :: joinSlash ms := goClean_rooted ms hm
  have htarg : goClean ('/' :: joinSlash (ms ++ ps)) = '/' :: joinSlash (ms ++ ps) :=
    goClean_rooted (ms ++ ps) hmp
  have hpnn : joinSlash ps ≠ [] := joinSlash_ne_nil ps hps hp
  have hne : ('/' :: joinSlash (ms ++ ps)) ≠ ('/' :: joinSlash ms) := by
    cases ms with
    | nil => simpa using hpnn
    | cons m t =>
      rw [joinSlash_append (m :: t) ps (by simp) hps]
      intro hcontra
      injection hcontra with h1 h2
      have hlen := congrArg List.length h2
      rw [List.length_append, List.length_cons] at hlen
      omega
  simp only [goRel]
  rw [hbase, htarg, if_neg hne]
  rw [if_neg (show ('/' :: joinSlash ms) ≠ ['.'] by
    cases ms with
    | nil => decide
    | cons m t => simp)]
  rw [if_neg (by simp)]
  cases ms with
  | nil =>
    obtain ⟨p, ps', rfl⟩ : ∃ p ps', ps = p :: ps' := by
      cases ps with
      | nil => exact absurd rfl hps
      | cons p ps' => exact ⟨p, ps', rfl⟩
    have h1 : splitSlash ('/' :: joinSlash ([] : List GoPath)) = [[], []] := by decide
    have h2 : splitSlash ('/' :: joinSlash (([] : List GoPath) ++ p :: ps'))
        = [] :: p :: ps' := by
      rw [List.nil_append, splitSlash_slash,
        splitSlash_joinSlash (p :: ps') (by simp) (fun c hc => (hp c hc).2.2.2)]
    rw [h1, h2]
    have h3 : stripCommon [[], []] ([] :: p :: ps') = ([[]], p :: ps') := by
      rw [stripCommon_cons_eq, stripCommon_cons_ne [] p [] ps' (Ne.symm (hp p (by simp)).1)]
    rw [h3]
    rw [if_neg (by simp)]
    simp [joinSlash]
  | cons m t =>
    have h1 : splitSlash ('/' :: joinSlash (m :: t)) = [] :: m :: t := by
      rw [splitSlash_slash,
        splitSlash_joinSlash (m :: t) (by simp) (fun c hc => (hm c hc).2.2.2)]
    have h2 : splitSlash ('/' :: joinSlash ((m :: t) ++ ps)) = ([] :: m :: t) ++ ps := by
      rw [splitSlash_slash,
        splitSlash_joinSlash ((m :: t) ++ ps) (by simp) (fun c hc => (hmp c hc).2.2.2)]
      simp
    rw [h1, h2, stripCommon_append]
    rw [if_neg (by simp)]
    simp [joinSlash]

theorem goJoin_mount (ms ps : List GoPath) (hm : ∀ c ∈ ms, goodComp c)
    (hp : ∀ c ∈ ps, goodComp c) (hps : ps ≠ []) :
    goJoin ['/' :: joinSlash ms, joinSlash ps] = '/' :: joinSlash (ms ++ ps) := by
  have hmp : ∀ c ∈ ms ++ ps, goodComp c := by
    intro c hc
    rcases List.mem_append.mp hc with hc | hc
    · exact hm c hc
    · exact hp c hc
  simp only [goJoin]
  rw [List.dropWhile_cons_of_neg (by simp)]
  rw [if_neg (by simp)]
  have h2 : joinSlash ['/' :: joinSlash ms, joinSlash ps]
      = '/' :: (joinSlash ms ++ '/' :: joinSlash ps) := by
    rw [joinSlash_cons _ _ (by simp)]
    simp [joinSlash]
  rw [h2]
  cases ms with
  | nil =>
    have hsplit : splitSlash ('/' :: (joinSlash ([] : List GoPath) ++ '/' :: joinSlash ps))
        = [] :: [] :: ps := by
      show splitSlash ('/' :: '/' :: joinSlash ps) = [] :: [] :: ps
      rw [splitSlash_slash, splitSlash_slash,
        splitSlash_joinSlash ps hps (fun c hc => (hp c hc).2.2.2)]
    have hflt : (([] : GoPath) :: ps).filter (fun c => !c.isEmpty) = ps := by
      rw [List.filter_cons_of_neg (by simp), filter_of_good ps hp]
    rw [goClean_slash_comps _ ([] :: ps) hsplit
      (by
        intro c hc
        rcases List.mem_cons.mp hc with rfl | hc
        · exact Or.inl rfl
        · exact Or.inr (hp c hc))
      (by rw [hflt]; exact hps)]
    rw [hflt, List.nil_append]
  | cons m t =>
    have hsplit : splitSlash ('/' :: (joinSlash (m :: t) ++ '/' :: joinSlash ps))
        = [] :: ((m :: t) ++ ps) := by
      rw [splitSlash_slash,
        splitSlash_joinSlash_sep (m :: t) _ (by simp) (fun c hc => (hm c hc).2.2.2),
        splitSlash_joinSlash ps hps (fun c hc => (hp c hc).2.2.2)]
    rw [goClean_slash_comps _ ((m :: t) ++ ps) hsplit (fun c hc => Or.inr (hmp c hc))
      (by rw [filter_of_good _ hmp]; simp)]
    rw [filter_of_good _ hmp]

theorem goJoin_alias (as ps : List GoPath) (ha : ∀ c ∈ as, goodComp c)
    (hp : ∀ c ∈ ps, goodComp c) (hps : ps ≠ []) :
    goJoin [['/'], '/' :: joinSlash as, joinSlash ps] = '/' :: joinSlash (as ++ ps) := by
  have hap : ∀ c ∈ as ++ ps, goodComp c := by
    intro c hc
    rcases List.mem_append.mp hc with hc | hc
    · exact ha c hc
    · exact hp c hc
  simp only [goJoin]
  rw [List.dropWhile_cons_of_neg (by simp)]
  rw [if_neg (by simp)]
  have h2 : joinSlash [['/'], '/' :: joinSlash as, joinSlash ps]
      = '/' :: '/' :: '/' :: (joinSlash as ++ '/' :: joinSlash ps) := by
    rw [joinSlash_cons _ _ (by simp), joinSlash_cons _ _ (by simp)]
    simp [joinSlash]
  rw [h2]
  cases as with
  | nil =>
    have hsplit : splitSlash
        ('/' :: ('/' :: '/' :: (joinSlash ([] : List GoPath) ++ '/' :: joinSlash ps)))
        = [] :: [] :: [] :: [] :: ps := by
      show splitSlash ('/' :: '/' :: '/' :: '/' :: joinSlash ps) = [] :: [] :: [] :: [] :: ps
      rw [splitSlash_slash, splitSlash_slash, splitSlash_slash, splitSlash_slash,
        splitSlash_joinSlash ps hps (fun c hc => (hp c hc).2.2.2)]
    have hflt : (([] : GoPath) :: [] :: [] :: ps).filter (fun c => !c.isEmpty) = ps := by
      rw [List.filter_cons_of_neg (by simp), List.filter_cons_of_neg (by simp),
        List.filter_cons_of_neg (by simp), filter_of_good ps hp]
    rw [goClean_slash_comps _ ([] :: [] :: [] :: ps) hsplit
      (by
        intro c hc
        rcases List.mem_cons.mp hc with rfl | hc
        · exact Or.inl rfl
        rcases List.mem_cons.mp hc with rfl | hc
        · exact Or.inl rfl
        rcases List.mem_cons.mp hc with rfl | hc
        · exact Or.inl rfl
        · exact Or.inr (hp c hc))
      (by rw [hflt]; exact hps)]
    rw [hflt, List.nil_append]
  | cons a0 t =>
    have hsplit : splitSlash
        ('/' :: ('/' :: '/' :: (joinSlash (a0 :: t) ++ '/' :: joinSlash ps)))
        = [] :: [] :: [] :: ((a0 :: t) ++ ps) := by
      rw [splitSlash_slash, splitSlash_slash, splitSlash_slash,
        splitSlash_joinSlash_sep (a0 :: t) _ (by simp) (fun c hc => (ha c hc).2.2.2),
        splitSlash_joinSlash ps hps (fun c hc => (hp c hc).2.2.2)]
    have hflt : (([] : GoPath) :: [] :: ((a0 :: t) ++ ps)).filter (fun c => !c.isEmpty)
        = (a0 :: t) ++ ps := by
      rw [List.filter_cons_of_neg (by simp), List.filter_cons_of_neg (by simp),
        filter_of_good _ hap]
    rw [goClean_slash_comps _ ([] :: [] :: ((a0 :: t) ++ ps)) hsplit
      (by
        intro c hc
        rcases List.mem_cons.mp hc with rfl | hc
        · exact Or.inl rfl
        rcases List.mem_cons.mp hc with rfl | hc
        · exact Or.inl rfl
        · exact Or.inr (hap c hc))
      (by rw [hflt]; simp)]
    rw [hflt]

/-!
## Claim theorems
-/

/-- C2 (amended): for every alias and relative path given by separator-free
non-dot components, `ZKPath` returns "/" followed by the alias followed by
the relative path, with trailing slashes and `.` segments normalized (the
closed conjuncts show `"test-path/"` under alias `"/"` resolving to
`"/test-path"` and `"./test-path/."` under `"/chroot"` resolving to
`"/chroot/test-path"`).  A `".."`-style escape, however, is NOT collapsed
back to the alias root: it is resolved lexically and clamped only at the
filesystem root `"/"`, so it can leave the alias (last conjunct: `".."`
under alias `"/chroot"` yields `"/"`). -/
theorem c2_zkpath_amended :
    (∀ (w : GoPath → List Nat → Int → Except Unit Stat) (as ms ps : List GoPath),
      (∀ c ∈ as, goodComp c) → (∀ c ∈ ms, goodComp c) → (∀ c ∈ ps, goodComp c) →
      ps ≠ [] →
      ZooHandle.ZKPath ⟨w, '/' :: joinSlash as, '/' :: joinSlash ms⟩ (joinSlash ps)
        = '/' :: joinSlash (as ++ ps))
    ∧ ZooHandle.ZKPath ⟨zhSetOkFn, "/".data, "/mnt/fuse".data⟩ "test-path/".data
        = "/test-path".data
    ∧ ZooHandle.ZKPath ⟨zhSetOkFn, "/chroot".data, "/mnt/fuse".data⟩ "./test-path/.".data
        = "/chroot/test-path".data
    ∧ ZooHandle.ZKPath ⟨zhSetOkFn, "/chroot".data, "/mnt/fuse".data⟩ "..".data
        = "/".data := by
  refine ⟨?_, by decide, by decide, by decide⟩
  intro w as ms ps ha hm hp hps
  show (match goRel ('/' :: joinSlash ms) (goJoin ['/' :: joinSlash ms, joinSlash ps]) with
    | none => goJoin [['/'], '/' :: joinSlash as]
    | some rel => goJoin [['/'], '/' :: joinSlash as, rel]) = '/' :: joinSlash (as ++ ps)
  rw [goJoin_mount ms ps hm hp hps, goRel_alias ms ps hm hp hps]
  exact goJoin_alias as ps ha hp hps

/-- C2 counterexample: with alias `"/chroot"` and mount `"/mnt/fuse"`, the
relative path `".."` escapes the mount point, yet `ZKPath` does not collapse
it back to the alias root `"/chroot"`: it returns `"/"`, which is not the
alias root and does not lie under the alias. -/
theorem c2_zkpath_escape_counterexample :
    ZooHandle.ZKPath ⟨zhSetOkFn, "/chroot".data, "/mnt/fuse".data⟩ "..".data = "/".data
    ∧ "/".data ≠ "/chroot".data
    ∧ List.take 7 "/".data ≠ "/chroot".data := by
  refine ⟨by decide, by decide, by decide⟩

/-- C2 witness: the amended theorem applied to alias `"/chroot"`, mount
`"/mnt/fuse"` and relative path `"test-path/sub-node"`. -/
theorem c2_zkpath_witness :
    ZooHandle.ZKPath ⟨zhSetOkFn, '/' :: joinSlash ["chroot".data],
        '/' :: joinSlash ["mnt".data, "fuse".data]⟩
      (joinSlash ["test-path".data, "sub-node".data])
      = '/' :: joinSlash ["chroot".data, "test-path".data, "sub-node".data] :=
  c2_zkpath_amended.1 zhSetOkFn ["chroot".data] ["mnt".data, "fuse".data]
    ["test-path".data, "sub-node".data] (by decide) (by decide) (by decide) (by decide)

/-- C1: on the three-byte snapshot of `fSample`, `Read` at offsets `0`..`3`
returns exactly the bytes from the offset to
`min(offset + len(buffer), len(snapshot))` (zero bytes at offset `3 = len`),
but at offset `4 > len` the slice expression `f.data[off:end]` has
`off > end` after clamping and the Go code panics (`none`) instead of
returning an `InvalidArgument` failure. -/
theorem c1_read_out_of_range :
    FuseFile.Read fSample 0 4 = none
    ∧ FuseFile.Read fSample 2 1 = some ([20, 30], Status.OK)
    ∧ FuseFile.Read fSample 0 3 = some ([], Status.OK)
    ∧ FuseFile.Read fSample 5 0 = some ([10, 20, 30], Status.OK) := by
  refine ⟨by decide, by decide, by decide, by decide⟩

/-- C3: within one `OpenDir`, the probe goroutines append to the one shared
`dirEntries` slice with no synchronization.  With two children both goroutines
may hold semaphore tokens at once (`maxWorkers 2 = 2`); the interleaving that
lets both goroutines read `dirEntries` before either writes loses child `a`
(second and third conjuncts), while the fully sequential interleaving keeps
both children (last conjunct) — the mutation of the shared collection is
neither synchronized nor deferred to a post-wait merge. -/
theorem c3_opendir_append_race :
    maxWorkers 2 = 2
    ∧ runSched [⟨"a".data, S_IFREG⟩, ⟨"b".data, S_IFDIR⟩]
        [(0, false), (1, false), (0, true), (1, true)]
        = [⟨ZNodeMarker, S_IFREG⟩, ⟨"b".data, S_IFDIR⟩]
    ∧ (⟨"a".data, S_IFREG⟩ : DirEntry) ∉
        runSched [⟨"a".data, S_IFREG⟩, ⟨"b".data, S_IFDIR⟩]
        [(0, false), (1, false), (0, true), (1, true)]
    ∧ runSched [⟨"a".data, S_IFREG⟩, ⟨"b".data, S_IFDIR⟩]
        [(0, false), (0, true), (1, false), (1, true)]
        = [⟨ZNodeMarker, S_IFREG⟩, ⟨"a".data, S_IFREG⟩, ⟨"b".data, S_IFDIR⟩] := by
  refine ⟨by decide, by decide, by decide, by decide⟩

/-- C4: `ZKPath` does not map a directory path joined with the marker name to
the directory's own remote path: with alias `"/chroot"` and mount
`"/mnt/fuse"`, resolving `"test-path/sub-node/" + ZNodeMarker` yields
`"/chroot/test-path/sub-node/__znode_data__"`, which differs from the
resolution of `"test-path/sub-node"` — contradicting the `TestZKPath`
assertion appended to `src/go.mod` and the spec's marker-entry contract. -/
theorem c4_marker_path_not_collapsed :
    ZooHandle.ZKPath zSample ("test-path/sub-node/".data ++ ZNodeMarker)
      = "/chroot/test-path/sub-node/__znode_data__".data
    ∧ ZooHandle.ZKPath zSample ("test-path/sub-node/".data ++ ZNodeMarker)
      ≠ ZooHandle.ZKPath zSample "test-path/sub-node".data := by
  refine ⟨by decide, by decide⟩

theorem mode_dir_ne_reg (rw : Bool) :
    Nat.lor S_IFDIR (dirPermissions rw) ≠ Nat.lor S_IFREG (filePermissions rw) := by
  cases rw <;> decide

/-- C5: for every non-root path, `GetAttr` fails with `ENOENT` when the node
errors or is absent remotely; when present, a path ending in the marker name
is a read-only regular file (`S_IFREG | 0444`) regardless of child count, and
otherwise the node is classified as a directory (`S_IFDIR` with the directory
permission mask) iff its child count is positive and as a regular file
(`S_IFREG` with the file permission mask) iff its child count is zero. -/
theorem c5_getattr_classification (f : FuseFS) (p : GoPath) (hp : p ≠ []) :
    ((f.zhExists p = .err ∨ f.zhExists p = .absent) →
      FuseFS.GetAttr f p = .error .ENOENT)
    ∧ (∀ stat : Stat, f.zhExists p = .present stat →
        (ZNodeMarker.isSuffixOf p = true →
          ∃ a : FAttr, FuseFS.GetAttr f p = .ok a ∧ a.Mode = Nat.lor S_IFREG IfRegRO)
        ∧ (ZNodeMarker.isSuffixOf p = false →
          ∃ a : FAttr, FuseFS.GetAttr f p = .ok a
            ∧ (a.Mode = Nat.lor S_IFDIR (dirPermissions f.IsReadWrite)
                ↔ 0 < stat.NumChildren)
            ∧ (a.Mode = Nat.lor S_IFREG (filePermissions f.IsReadWrite)
                ↔ stat.NumChildren = 0))) := by
  constructor
  · rintro (h | h) <;> simp [FuseFS.GetAttr, hp, h]
  · intro stat hst
    constructor
    · intro hmk
      exact ⟨⟨Nat.lor S_IFREG IfRegRO, stat.DataLength, stat.Mtime / 1000,
          stat.Ctime / 1000⟩,
        by simp [FuseFS.GetAttr, hp, hst, hmk], by simp⟩
    · intro hmk
      by_cases hnc : stat.NumChildren = 0
      · refine ⟨⟨Nat.lor S_IFREG (filePermissions f.IsReadWrite), stat.DataLength,
          stat.Mtime / 1000, stat.Ctime / 1000⟩,
          by simp [FuseFS.GetAttr, hp, hst, hmk, hnc], ?_, ?_⟩
        · simp only [hnc]
          exact iff_of_false (Ne.symm (mode_dir_ne_reg f.IsReadWrite)) (by omega)
        · simp [hnc]
      · refine ⟨⟨Nat.lor S_IFDIR (dirPermissions f.IsReadWrite), stat.DataLength,
          stat.Mtime / 1000, stat.Ctime / 1000⟩,
          by simp [FuseFS.GetAttr, hp, hst, hmk, hnc], ?_, ?_⟩
        · exact iff_of_true rfl (Nat.pos_of_ne_zero hnc)
        · exact iff_of_false (mode_dir_ne_reg f.IsReadWrite) hnc

/-- C5 witness: the classification theorem applied to a present node with two
children at path `"a"` on a read-write mount. -/
theorem c5_getattr_witness :
    ∃ a : FAttr, FuseFS.GetAttr { fsA with zhExists := exPresentFn } ['a'] = Except.ok a
      ∧ (a.Mode = Nat.lor S_IFDIR IfDirRW ↔ 0 < (2 : Nat))
      ∧ (a.Mode = Nat.lor S_IFREG IfRegRW ↔ (2 : Nat) = 0) :=
  ((c5_getattr_classification { fsA with zhExists := exPresentFn } ['a']
    (by decide)).2 ⟨2, 7, 1999, 2999⟩ rfl).2 (by decide)

/-- C6: listing directory `"d"` with children `a` (probe: present, zero
children), `b` (probe: absent) and `c` (probe: present, three children).
The claim demands `[marker, a, c]` — one entry per child whose probe
succeeded, `b` silently omitted — on every run, and the fully sequential
interleaving of the two surviving appends does produce it (fourth conjunct).
But the appends are unsynchronized: the interleaving that lets both
surviving goroutines read `dirEntries` before either writes produces
`[marker, c]` (fifth conjunct), losing child `a` even though its probe
succeeded (first conjunct) — so the claimed listing shape is not a property
of the program.  The failure half of the claim does hold: a failed
`Children` call is `ENOENT` under every schedule, with no partial listing
(last conjunct). -/
theorem c6_opendir_lost_entry :
    openDirEntry fsA "d".data "a".data = some ⟨"a".data, S_IFREG⟩
    ∧ openDirEntry fsA "d".data "b".data = none
    ∧ openDirEntry fsA "d".data "c".data = some ⟨"c".data, S_IFDIR⟩
    ∧ FuseFS.OpenDir fsA "d".data [(0, false), (0, true), (1, false), (1, true)]
      = Except.ok [⟨ZNodeMarker, S_IFREG⟩, ⟨"a".data, S_IFREG⟩, ⟨"c".data, S_IFDIR⟩]
    ∧ FuseFS.OpenDir fsA "d".data [(0, false), (1, false), (0, true), (1, true)]
      = Except.ok [⟨ZNodeMarker, S_IFREG⟩, ⟨"c".data, S_IFDIR⟩]
    ∧ ∀ sched : List (Nat × Bool),
        FuseFS.OpenDir { fsA with zhChildren := fun _ => Except.error () } "d".data sched
          = Except.error Status.ENOENT := by
  refine ⟨by decide, by decide, by decide, rfl, rfl, fun sched => rfl⟩

/-- C7: `Unlink` on any path ending in the marker name fails with `EPERM` for
every `FuseFS` whatsoever — hence independently of the read-write flag and of
the gateway (no remote call can influence the result); on every other path it
calls `zh.Delete(path, -1)` unconditionally, mapping failure to `EIO` and
success to `OK`, again independently of the read-write flag. -/
theorem c7_unlink (f : FuseFS) (p : GoPath) :
    (ZNodeMarker.isSuffixOf p = true →
      FuseFS.Unlink f p = .EPERM ∧ ∀ g : FuseFS, FuseFS.Unlink g p = .EPERM)
    ∧ (ZNodeMarker.isSuffixOf p = false →
      (f.zhDelete p (-1) = .ok () → FuseFS.Unlink f p = .OK)
      ∧ (∀ e : Unit, f.zhDelete p (-1) = .error e → FuseFS.Unlink f p = .IOFailure)
      ∧ (∀ b : Bool, FuseFS.Unlink { f with IsReadWrite := b } p = FuseFS.Unlink f p)) := by
  constructor
  · intro h
    exact ⟨by simp [FuseFS.Unlink, h], fun g => by simp [FuseFS.Unlink, h]⟩
  · intro h
    refine ⟨?_, ?_, fun b => rfl⟩
    · intro hd
      simp [FuseFS.Unlink, h, hd]
    · intro e hd
      simp [FuseFS.Unlink, h, hd]

/-- C7 witness: unlinking the marker under `"d"` is `EPERM` while unlinking
the ordinary child `"d/x"` through a succeeding gateway delete is `OK`. -/
theorem c7_unlink_witness :
    FuseFS.Unlink fsA ("d/".data ++ ZNodeMarker) = Status.EPERM
    ∧ FuseFS.Unlink fsA "d/x".data = Status.OK :=
  ⟨((c7_unlink fsA ("d/".data ++ ZNodeMarker)).1 (by decide)).1,
   ((c7_unlink fsA "d/x".data).2 (by decide)).1 rfl⟩

/-- C8: `ZooHandle.Set` with a payload strictly longer than `MaxZnodeData`
(1,048,576 bytes) fails with `payloadTooLarge` for every handle — hence
before any path translation and without the wire client's `Set` ever being
invoked; a payload of at most `MaxZnodeData` bytes is passed to the wire
client unchanged at the translated path, the wire result passed through. -/
theorem c8_set_payload_bound (z : ZooHandle) (p : GoPath) (d : List Nat) (v : Int) :
    (MaxZnodeData < d.length →
      ZooHandle.Set z p d v = .error .payloadTooLarge
      ∧ ∀ z2 : ZooHandle, ZooHandle.Set z2 p d v = .error .payloadTooLarge)
    ∧ (d.length ≤ MaxZnodeData →
      ZooHandle.Set z p d v
        = match z.zkSet (z.ZKPath p) d v with
          | .error _ => .error .wireErr
          | .ok stat => .ok stat) := by
  constructor
  · intro h
    exact ⟨by simp [ZooHandle.Set, h], fun z2 => by simp [ZooHandle.Set, h]⟩
  · intro h
    simp only [ZooHandle.Set]
    rw [if_neg (Nat.not_lt.mpr h)]

/-- C8 witness: a 1,048,577-byte payload is rejected as too large, and a
two-byte payload is passed through to the wire client. -/
theorem c8_set_witness :
    ZooHandle.Set zSample "x".data bigData 0 = Except.error SetErr.payloadTooLarge
    ∧ ZooHandle.Set zSample "x".data [1, 2] 0
      = match zSample.zkSet (zSample.ZKPath "x".data) [1, 2] 0 with
        | .error _ => Except.error SetErr.wireErr
        | .ok stat => Except.ok stat :=
  ⟨((c8_set_payload_bound zSample "x".data bigData 0).1
      (by unfold bigData; rw [List.length_replicate]; decide)).1,
   (c8_set_payload_bound zSample "x".data [1, 2] 0).2 (by decide)⟩

/-- C9: a zero-length `Write` returns zero bytes written and success, leaving
the handle unchanged and with the same result under any substituted gateway
(no remote call); non-empty content is sent whole via `zh.Set(f.path,
content, -1)` with the result independent of the offset; gateway failure
yields zero bytes written and `EIO`; success updates the recorded size to the
store-reported length and returns that length. -/
theorem c9_write (f : FuseFile) (content : List Nat) (off off2 : Int) :
    (content = [] →
      FuseFile.Write f content off = (f, 0, Status.OK)
      ∧ ∀ s2 : GoPath → List Nat → Int → Except Unit Stat,
          FuseFile.Write { f with zhSet := s2 } content off
            = ({ f with zhSet := s2 }, 0, Status.OK))
    ∧ (content ≠ [] →
      (∀ e : Unit, f.zhSet f.path content (-1) = .error e →
        FuseFile.Write f content off = (f, 0, Status.IOFailure))
      ∧ (∀ stat : Stat, f.zhSet f.path content (-1) = .ok stat →
          stat.DataLength < 2 ^ 31 →
          FuseFile.Write f content off
            = ({ f with Size := stat.DataLength }, stat.DataLength, Status.OK))
      ∧ FuseFile.Write f content off = FuseFile.Write f content off2) := by
  constructor
  · rintro rfl
    exact ⟨by simp [FuseFile.Write], fun s2 => by simp [FuseFile.Write]⟩
  · intro hc
    have hlen : ¬ content.length = 0 := fun h => hc (List.length_eq_zero.mp h)
    refine ⟨?_, ?_, rfl⟩
    · intro e hd
      simp [FuseFile.Write, hlen, hd]
    · intro stat hd hsmall
      have hmod : stat.DataLength % 2 ^ 32 = stat.DataLength :=
        Nat.mod_eq_of_lt (lt_trans hsmall (by norm_num))
      simp [FuseFile.Write, hlen, hd, hmod]
      exact lt_trans hsmall (by norm_num)

/-- C9 witness: the empty write on `fSample` is a no-op success, and writing
two bytes through the succeeding gateway returns length 2 and records it. -/
theorem c9_write_witness :
    FuseFile.Write fSample [] 5 = (fSample, 0, Status.OK)
    ∧ FuseFile.Write fSample [7, 8] 3 = ({ fSample with Size := 2 }, 2, Status.OK) :=
  ⟨((c9_write fSample [] 5 0).1 rfl).1,
   ((c9_write fSample [7, 8] 3 0).2 (by decide)).2.1 ⟨0, 2, 0, 0⟩ rfl (by decide)⟩

/-- C10: every `FuseFile` built by the constructor has the owner-write bit
(bit 7, the `0200` bit of `0644`) set in its mode, because the constructor
ORs the mode with `IfRegRW` unconditionally; `Open` and `Create` both return
`NewFuseFile` handles built with the `IfRegRW` mask, and neither result
depends on the mount's read-write flag. -/
theorem c10_handle_mode (f : FuseFS) (p : GoPath) :
    (∀ (data : List Nat) (m : Nat) (q : GoPath)
        (s : GoPath → List Nat → Int → Except Unit Stat),
      Nat.testBit (NewFuseFile data m q s).Mode 7 = true)
    ∧ (∀ d : List Nat, f.zhGet p = .ok d →
        FuseFS.Open f p = .ok (NewFuseFile d IfRegRW p f.zhSet))
    ∧ (∀ cp : GoPath, f.zhCreate p [] 0 = .ok cp →
        FuseFS.Create f p = .ok (NewFuseFile [] IfRegRW p f.zhSet))
    ∧ (∀ b : Bool, FuseFS.Open { f with IsReadWrite := b } p = FuseFS.Open f p)
    ∧ (∀ b : Bool, FuseFS.Create { f with IsReadWrite := b } p = FuseFS.Create f p) := by
  have h7 : Nat.testBit IfRegRW 7 = true := by decide
  refine ⟨?_, ?_, ?_, fun b => rfl, fun b => rfl⟩
  · intro data m q s
    show (m ||| IfRegRW).testBit 7 = true
    rw [Nat.testBit_lor]
    simp [h7]
  · intro d hd
    simp [FuseFS.Open, hd]
  · intro cp hcp
    simp [FuseFS.Create, hcp]

/-- C10 witness: opening `"x"` through a gateway returning `"hi"` yields the
`NewFuseFile` handle with the `IfRegRW` mask, and a handle built with
requested mode `0` still has the owner-write bit set. -/
theorem c10_handle_mode_witness :
    FuseFS.Open fsA "x".data
      = Except.ok (NewFuseFile [104, 105] IfRegRW "x".data fsA.zhSet)
    ∧ Nat.testBit (NewFuseFile [] 0 "x".data zhSetOkFn).Mode 7 = true :=
  ⟨(c10_handle_mode fsA "x".data).2.1 [104, 105] rfl,
   (c10_handle_mode fsA "x".data).1 [] 0 "x".data zhSetOkFn⟩
